import Mathlib

/-!
Verification of `uppasd_sweeper` (`src/t_sweeper.py`) against its specification.

The Python source is shallowly embedded: file contents and strings are
`List Char`, Python floats are modelled as exact rationals `ℚ`, Python ints
as `ℤ`, and fallible operations return `Option`.
-/

namespace TSweeper

/-! ### Decimal rendering of integers (Python `f"{int(...)}"`) -/

/-- The ten decimal digit characters. -/
def digitList : List Char := ['0', '1', '2', '3', '4', '5', '6', '7', '8', '9']

/-- The character for the decimal digit `d` (`d < 10` in every use). -/
def digitChar (d : ℕ) : Char := digitList.getD d '9'

/-- Numeric value of a digit character. -/
def charVal (c : Char) : ℕ := c.toNat - 48

/-- Decimal digits of `n`, most significant first; `fuel` bounds the recursion
(`fuel ≥ n` suffices). An input of `0` yields `[]`. -/
def natCharsAux : ℕ → ℕ → List Char
  | 0, _ => []
  | _ + 1, 0 => []
  | fuel + 1, n => natCharsAux fuel (n / 10) ++ [digitChar (n % 10)]

/-- Decimal digit string of a natural number, as Python renders it. -/
def natChars (n : ℕ) : List Char := if n = 0 then ['0'] else natCharsAux n n

/-- Decimal string of an integer, as Python `f"{n}"` / `str(n)` renders it. -/
def intChars : ℤ → List Char
  | Int.ofNat n => natChars n
  | Int.negSucc n => '-' :: natChars (n + 1)

/-- Reads a digit string back as a number (used to prove injectivity of
decimal rendering). -/
def valOfChars (l : List Char) : ℕ := l.foldl (fun a c => 10 * a + charVal c) 0

/-! ### Python `round` on exact rationals: nearest integer, ties to even -/

/-- Python's built-in `round` to an integer: nearest integer, ties to even. -/
def pyRound (q : ℚ) : ℤ :=
  if q - ⌊q⌋ < 1 / 2 then ⌊q⌋
  else if 1 / 2 < q - ⌊q⌋ then ⌊q⌋ + 1
  else if ⌊q⌋ % 2 = 0 then ⌊q⌋ else ⌊q⌋ + 1

/-- The integer used for the workspace folder name:
`int(round(t))` at `src/t_sweeper.py:71`. -/
def folder_int (t : ℚ) : ℤ := pyRound t

/-- The integer substituted for the placeholder token:
`int(round(temperature))` at `src/t_sweeper.py:51`. -/
def subst_int (t : ℚ) : ℤ := pyRound t

/-- Python `f"{n:04d}"`: decimal string zero-padded to (minimum) width 4,
with the zeros inserted after the sign. -/
def pad4 (n : ℤ) : List Char :=
  if n < 0 then
    '-' :: (List.replicate (3 - (natChars n.natAbs).length) '0' ++ natChars n.natAbs)
  else
    List.replicate (4 - (natChars n.natAbs).length) '0' ++ natChars n.natAbs

/-- The workspace directory name `f"T_{int(round(t)):04d}"`
(`src/t_sweeper.py:71`). -/
def folderName (t : ℚ) : List Char := 'T' :: '_' :: pad4 (folder_int t)

/-! ### Text substitution: `text.replace("TEMP", f"{int(round(temperature))}")`
(`src/t_sweeper.py:51`).  Python `str.replace` substitutes every occurrence,
scanning left to right, non-overlapping. -/

/-- `replaceTEMP rep l` replaces every occurrence of `['T','E','M','P']` in `l`
by `rep`, left to right, non-overlapping — the semantics of Python
`l.replace("TEMP", rep)`. -/
def replaceTEMP (rep : List Char) : List Char → List Char
  | [] => []
  | [c] => [c]
  | [c₁, c₂] => [c₁, c₂]
  | [c₁, c₂, c₃] => [c₁, c₂, c₃]
  | c₁ :: c₂ :: c₃ :: c₄ :: rest =>
    if c₁ = 'T' ∧ c₂ = 'E' ∧ c₃ = 'M' ∧ c₄ = 'P' then
      rep ++ replaceTEMP rep rest
    else
      c₁ :: replaceTEMP rep (c₂ :: c₃ :: c₄ :: rest)

/-! ### Per-file substitution (`replace_temperature_strings`,
`src/t_sweeper.py:36-56`).  A file is modelled by its name, its extension
(`path.suffix`) and its decoded text; `text = none` models a file whose
`read_text()` raises `UnicodeDecodeError`. -/

structure WFile where
  name : List Char
  suffix : List Char
  text : Option (List Char)
deriving DecidableEq, Repr

/-- What `replace_temperature_strings` does to a single file: extensions
`.exe`/`.bin` are skipped, undecodable files are skipped silently, otherwise
every `TEMP` is replaced by the decimal string of the rounded temperature. -/
def substFile (t : ℚ) (f : WFile) : WFile :=
  if f.suffix = ".exe".toList ∨ f.suffix = ".bin".toList then f
  else
    match f.text with
    | none => f
    | some txt => { f with text := some (replaceTEMP (intChars (subst_int t)) txt) }

/-- Whether the file is written back: only when the substituted content
differs from the original (`if new_text != text`, `src/t_sweeper.py:52`). -/
def writesBack (t : ℚ) (f : WFile) : Bool :=
  if f.suffix = ".exe".toList ∨ f.suffix = ".bin".toList then false
  else
    match f.text with
    | none => false
    | some txt => decide (replaceTEMP (intChars (subst_int t)) txt ≠ txt)

/-! ### Workspace materialization (`run_simulation`, `src/t_sweeper.py:71-85`).
The workspace directory for a temperature is modelled as a flag (does the
directory exist) plus a flat list of files keyed by `name`. -/

structure Workspace where
  dirExists : Bool
  files : List WFile
deriving DecidableEq, Repr

/-- `Path.mkdir(exist_ok=...)`: fails iff the directory exists and
`exist_ok` is false.  The source always passes `exist_ok=True`
(`src/t_sweeper.py:73`). -/
def mkdir (existOk : Bool) (w : Workspace) : Option Workspace :=
  if w.dirExists then
    if existOk then some w else none
  else some { w with dirExists := true }

/-- Copying the base directory entries into the workspace
(`src/t_sweeper.py:76-82`): same-named destination files are overwritten
(`shutil.copy2` / `copytree(dirs_exist_ok=True)`), other files are kept. -/
def copyInto (base ws : List WFile) : List WFile :=
  ws.filter (fun f => !(base.any fun b => b.name == f.name)) ++ base

/-- The materialization phase of `run_simulation` for one temperature:
`mkdir(exist_ok=True)`, copy the base entries, substitute the temperature
in every file of the workspace. -/
def materialize (t : ℚ) (base : List WFile) (w : Workspace) : Option Workspace :=
  match mkdir true w with
  | none => none
  | some w₁ => some { dirExists := w₁.dirExists,
                      files := (copyInto base w₁.files).map (substFile t) }

/-! ### The temperature mesh (`main`, `src/t_sweeper.py:166-172`) -/

/-- `np.arange(start, stop, step)` over exact rationals: the values
`start + k * step` for `0 ≤ k < ⌈(stop - start) / step⌉`. -/
def arange (start stop step : ℚ) : List ℚ :=
  (List.range (⌈(stop - start) / step⌉).toNat).map fun k : ℕ => start + (k : ℚ) * step

/-- `np.linspace(start, stop, num)`: `num` evenly spaced values with both
endpoints included (dead code in this program, see claim C2; a negative
`num` raises in numpy and is modelled as the empty mesh). -/
def linspace (start stop : ℚ) (num : ℤ) : List ℚ :=
  if num ≤ 0 then []
  else if num = 1 then [start]
  else (List.range num.toNat).map
    fun k : ℕ => start + (k : ℚ) * ((stop - start) / ((num : ℚ) - 1))

/-- Python `sub in s` on strings: contiguous substring containment. -/
def listInfixOf (pat : List Char) : List Char → Bool
  | [] => pat.isEmpty
  | c :: rest => pat.isPrefixOf (c :: rest) || listInfixOf pat rest

/-- The keys of `args.__dict__` as built by the `argparse` configuration in
`main` (`src/t_sweeper.py:115-147`): one entry per declared flag, in
declaration order, independent of which flags were supplied. -/
def argDictKeys : List (List Char) :=
  ["tmin", "tmax", "tstep", "steps", "binary", "base", "file"].map String.toList

/-- Result of the mesh-selection code: either a mesh or the
`sys.exit(1)` branch. -/
inductive MeshResult where
  | mesh : List ℚ → MeshResult
  | exitError : MeshResult
deriving DecidableEq

/-- The mesh selection of `main` (`src/t_sweeper.py:166-172`):
`any("tstep" in arg for arg in args.__dict__)` iterates over the keys of the
argument dictionary and tests substring containment. -/
def computeMesh (tmin tmax tstep : ℚ) (steps : ℤ) : MeshResult :=
  if argDictKeys.any (fun k => listInfixOf "tstep".toList k) then
    .mesh (arange tmin (tmax + tstep) tstep)
  else if argDictKeys.any (fun k => listInfixOf "steps".toList k) then
    .mesh (linspace tmin tmax steps)
  else .exitError

/-- The step-mode mesh: `np.arange(args.tmin, args.tmax + args.tstep,
args.tstep)` (`src/t_sweeper.py:167`). -/
def tMesh (tmin tmax tstep : ℚ) : List ℚ := arange tmin (tmax + tstep) tstep

/-! ### Config-file parsing (`parse_config_file`, `src/t_sweeper.py:17-33`) -/

/-- The characters Python `str.strip()` removes. -/
def pySpace (c : Char) : Bool :=
  c == ' ' || c == '\t' || c == '\n' || c == '\r' || c == '\x0b' || c == '\x0c'

/-- Python `str.strip()`: drop leading and trailing whitespace. -/
def strip (l : List Char) : List Char :=
  ((l.dropWhile pySpace).reverse.dropWhile pySpace).reverse

/-- Python `s.split("=", 1)`: split on the first `=`.  Only called on lines
that contain `=`; on a list without `=` it returns `(l, [])`. -/
def splitEq1 : List Char → List Char × List Char
  | [] => ([], [])
  | c :: rest =>
    if c = '=' then ([], rest)
    else
      let p := splitEq1 rest
      (c :: p.1, p.2)

/-- `config[key] = value` on a Python dict modelled as an association list in
insertion order: update in place if the key exists, else append. -/
def dUpsert (m : List (List Char × List Char)) (k v : List Char) :
    List (List Char × List Char) :=
  if m.any (fun p => p.1 == k) then
    m.map fun p => if p.1 == k then (k, v) else p
  else m ++ [(k, v)]

/-- `config.get(key)` : the value stored for `key`, if any. -/
def dget (m : List (List Char × List Char)) (k : List Char) : Option (List Char) :=
  (m.find? fun p => p.1 == k).map (·.2)

/-- One iteration of the parsing loop (`src/t_sweeper.py:30-32`):
`if "=" in line and not line.strip().startswith("#")`. -/
def processLine (cfg : List (List Char × List Char)) (line : List Char) :
    List (List Char × List Char) :=
  if line.contains '=' && !("#".toList.isPrefixOf (strip line)) then
    let p := splitEq1 (strip line)
    dUpsert cfg (strip p.1) (strip p.2)
  else cfg

/-- Split file content into lines (Python file iteration yields the lines
with their trailing newline; `strip` removes it, and `'='` membership and
the comment test are unaffected by the trailing newline, so dropping the
newline at the split is equivalent). -/
def splitNL : List Char → List (List Char)
  | [] => [[]]
  | c :: rest =>
    match splitNL rest with
    | [] => [[c]]
    | cur :: more => if c = '\n' then [] :: cur :: more else (c :: cur) :: more

/-- `parse_config_file` (`src/t_sweeper.py:17-33`) on the file content. -/
def parse_config_file (content : List Char) : List (List Char × List Char) :=
  (splitNL content).foldl processLine []

/-! ### Python numeric conversions used on config values
(`main`, `src/t_sweeper.py:159-162`) -/

/-- Leading sign of a numeric literal; `true` means negative. -/
def parseSign : List Char → Bool × List Char
  | '+' :: r => (false, r)
  | '-' :: r => (true, r)
  | l => (false, l)

/-- A nonempty all-digit string read as a number. -/
def digitsVal : List Char → Option ℕ
  | [] => none
  | l => if l.all Char.isDigit then some (valOfChars l) else none

/-- Python `int(s)` on a string: optional sign followed by digits; anything
else raises `ValueError` (modelled as `none`). -/
def pyIntOfString (s : List Char) : Option ℤ :=
  let t := strip s
  let p := parseSign t
  (digitsVal p.2).map fun n => if p.1 then -(n : ℤ) else (n : ℤ)

/-- Python `s.split(".", 1)` restricted to what `pyFloatOfString` needs:
the part before the first `.` and the part after it. -/
def splitDot : List Char → List Char × List Char
  | [] => ([], [])
  | c :: rest =>
    if c = '.' then ([], rest)
    else
      let p := splitDot rest
      (c :: p.1, p.2)

/-- Python `float(s)` on the decimal (non-exponent) forms
`[sign] digits [. digits]` / `[sign] . digits`: the exact rational value;
anything else raises `ValueError` (modelled as `none`). -/
def pyFloatOfString (s : List Char) : Option ℚ :=
  let t := strip s
  let p := parseSign t
  let r := p.2
  if r.contains '.' then
    let q := splitDot r
    if q.1.all Char.isDigit ∧ q.2.all Char.isDigit ∧ (q.1 ≠ [] ∨ q.2 ≠ []) ∧
        ¬ q.2.contains '.' then
      let v : ℚ := (valOfChars q.1 : ℚ) + (valOfChars q.2 : ℚ) / 10 ^ q.2.length
      some (if p.1 then -v else v)
    else none
  else (digitsVal r).map fun n => if p.1 then -(n : ℚ) else (n : ℚ)

/-- Python `int(x)` on a float: truncation toward zero. -/
def truncQ (q : ℚ) : ℤ := if 0 ≤ q then ⌊q⌋ else -⌊-q⌋

/-- The resolved argument set (`args` after `parse_args`):
`tmin`, `tmax`, `tstep` are floats, `steps` an int, `binary` and `base`
strings. -/
structure Args where
  tmin : ℚ
  tmax : ℚ
  tstep : ℚ
  steps : ℤ
  binary : List Char
  base : List Char
deriving DecidableEq, Repr

/-- The argparse defaults (`src/t_sweeper.py:115-147`). -/
def defaultArgs : Args :=
  { tmin := 0, tmax := 500, tstep := 100, steps := 11,
    binary := "./uppasd".toList, base := "Base".toList }

/-- The config-file override block (`src/t_sweeper.py:159-164`):
`args.tmin = float(config.get("tmin", args.tmin))` and so on.  Note the
source converts `tstep` with `int(...)`, not `float(...)`: a config value
is parsed as an integer literal (raising `ValueError` otherwise), and an
absent key truncates the CLI float.  A raised conversion error is `none`. -/
def applyConfig (cfg : List (List Char × List Char)) (a : Args) : Option Args := do
  let tmin ← match dget cfg "tmin".toList with
    | some v => pyFloatOfString v
    | none => some a.tmin
  let tmax ← match dget cfg "tmax".toList with
    | some v => pyFloatOfString v
    | none => some a.tmax
  let tstep ← match dget cfg "tstep".toList with
    | some v => (pyIntOfString v).map fun z => (z : ℚ)
    | none => some ((truncQ a.tstep : ℤ) : ℚ)
  let steps ← match dget cfg "steps".toList with
    | some v => pyIntOfString v
    | none => some a.steps
  some { tmin := tmin, tmax := tmax, tstep := tstep, steps := steps,
         binary := (dget cfg "binary".toList).getD a.binary,
         base := (dget cfg "base".toList).getD a.base }

/-! ### The sweep loop (`main`, `src/t_sweeper.py:184-186`, and
`run_simulation`, `src/t_sweeper.py:59-95`) -/

/-- Result of one `run_simulation` call once the workspace is materialized:
`ok` means the binary exited with status zero; `fail` means the subprocess
could not be started or exited nonzero (`check=True` raises either way). -/
inductive RunOutcome where
  | ok : RunOutcome
  | fail : RunOutcome
deriving DecidableEq

/-- The sweep loop `for t in temperatures: run_simulation(t, ...)`:
returns the list of temperatures for which `run_simulation` was invoked
(each such invocation materializes the workspace and creates its `out.log`
before the subprocess starts) and whether the process completed
successfully (`true` = exit status zero).  An exception from a run
propagates: the loop stops at the failed temperature. -/
def runSweep (outcome : ℚ → RunOutcome) : List ℚ → List ℚ × Bool
  | [] => ([], true)
  | t :: rest =>
    match outcome t with
    | .ok =>
      let p := runSweep outcome rest
      (t :: p.1, p.2)
    | .fail => ([t], false)

/-- The statements of `run_simulation` in source order
(`src/t_sweeper.py:71-95`). -/
inductive SimAct where
  | mkdirA
  | copyA
  | substA
  | openLogA
  | launchA
deriving DecidableEq

/-- The actions `run_simulation` performs, by source order: `mkdir`
(line 73), then the copy loop over `base_path.iterdir()` (lines 77-82,
which raises `FileNotFoundError` when the base directory is missing),
then substitution (line 85), then opening `out.log` (line 88), then
launching the binary (line 89).  The second component records whether an
IO error was raised before the subprocess stage. -/
def runSimActs (baseExists : Bool) : List SimAct × Bool :=
  if baseExists then
    ([.mkdirA, .copyA, .substA, .openLogA, .launchA], false)
  else ([.mkdirA], true)

/-! ### Helper lemmas -/

theorem pyRound_eq_of_lt (q : ℚ) (z : ℤ) (hf : ⌊q⌋ = z) (h : q - z < 1 / 2) :
    pyRound q = z := by
  unfold pyRound
  rw [hf, if_pos h]

theorem pyRound_eq_of_gt (q : ℚ) (z : ℤ) (hf : ⌊q⌋ = z) (h : 1 / 2 < q - z) :
    pyRound q = z + 1 := by
  unfold pyRound
  rw [hf, if_neg (by linarith), if_pos h]

theorem pyRound_tie_even (q : ℚ) (z : ℤ) (hf : ⌊q⌋ = z) (h : q - z = 1 / 2)
    (he : z % 2 = 0) : pyRound q = z := by
  unfold pyRound
  rw [hf, if_neg (by rw [h]; exact lt_irrefl _), if_neg (by rw [h]; exact lt_irrefl _),
    if_pos he]

theorem pyRound_tie_odd (q : ℚ) (z : ℤ) (hf : ⌊q⌋ = z) (h : q - z = 1 / 2)
    (ho : ¬ z % 2 = 0) : pyRound q = z + 1 := by
  unfold pyRound
  rw [hf, if_neg (by rw [h]; exact lt_irrefl _), if_neg (by rw [h]; exact lt_irrefl _),
    if_neg ho]

theorem subst_int_3104 : subst_int (1552 / 5) = 310 :=
  pyRound_eq_of_lt _ 310 (by norm_num) (by norm_num)

theorem dget_dUpsert_self (m : List (List Char × List Char)) (k v : List Char) :
    dget (dUpsert m k v) k = some v := by
  unfold dUpsert dget
  by_cases h : m.any (fun p => p.1 == k)
  · rw [if_pos h]
    induction m with
    | nil => simp at h
    | cons p rest ih =>
      simp only [List.map_cons]
      by_cases hp : (p.1 == k) = true
      · rw [if_pos hp, List.find?_cons_of_pos _ (by simp)]
        rfl
      · rw [if_neg hp, List.find?_cons_of_neg _ (by simpa using hp)]
        exact ih (by simpa [List.any_cons, hp] using h)
  · rw [if_neg h]
    have h' : ∀ p ∈ m, (p.1 == k) = false := by
      intro p hp
      by_contra hc
      exact h (List.any_eq_true.mpr ⟨p, hp, by simpa using hc⟩)
    clear h
    induction m with
    | nil => simp [List.find?_cons]
    | cons p rest ih =>
      have hp := h' p (List.mem_cons_self p rest)
      simp only [List.cons_append, List.find?_cons, hp]
      exact ih fun q hq => h' q (List.mem_cons_of_mem p hq)

/-! ### Decimal rendering: reading back and injectivity -/

theorem charVal_digitChar : ∀ d, d < 10 → charVal (digitChar d) = d := by decide

theorem digitChar_mem (d : ℕ) : digitChar d ∈ digitList := by
  unfold digitChar
  by_cases h : d < 10
  · interval_cases d <;> decide
  · rw [List.getD_eq_default]
    · decide
    · simpa [digitList] using le_of_not_lt h

theorem valOfChars_append (l : List Char) (c : Char) :
    valOfChars (l ++ [c]) = 10 * valOfChars l + charVal c := by
  unfold valOfChars
  rw [List.foldl_append]
  rfl

theorem val_natCharsAux : ∀ fuel n, n ≤ fuel → valOfChars (natCharsAux fuel n) = n := by
  intro fuel
  induction fuel with
  | zero =>
    intro n h
    have h0 : n = 0 := Nat.le_zero.mp h
    subst h0
    decide
  | succ fuel ih =>
    intro n h
    cases n with
    | zero => rfl
    | succ m =>
      have heq : natCharsAux (fuel + 1) (m + 1)
          = natCharsAux fuel ((m + 1) / 10) ++ [digitChar ((m + 1) % 10)] := rfl
      rw [heq, valOfChars_append,
        ih ((m + 1) / 10) (by omega),
        charVal_digitChar _ (Nat.mod_lt _ (by norm_num))]
      omega

theorem val_natChars (n : ℕ) : valOfChars (natChars n) = n := by
  unfold natChars
  by_cases h : n = 0
  · subst h
    decide
  · rw [if_neg h]
    exact val_natCharsAux n n le_rfl

theorem natCharsAux_digits :
    ∀ fuel n, ∀ c ∈ natCharsAux fuel n, c ∈ digitList := by
  intro fuel
  induction fuel with
  | zero => intro n c hc; simp [natCharsAux] at hc
  | succ fuel ih =>
    intro n c hc
    cases n with
    | zero => simp [natCharsAux] at hc
    | succ m =>
      have heq : natCharsAux (fuel + 1) (m + 1)
          = natCharsAux fuel ((m + 1) / 10) ++ [digitChar ((m + 1) % 10)] := rfl
      rw [heq] at hc
      rcases List.mem_append.mp hc with hl | hr
      · exact ih _ c hl
      · rw [List.mem_singleton.mp hr]
        exact digitChar_mem _

theorem natChars_digits (n : ℕ) : ∀ c ∈ natChars n, c ∈ digitList := by
  intro c hc
  unfold natChars at hc
  by_cases h : n = 0
  · rw [if_pos h] at hc
    rw [List.mem_singleton.mp hc]
    decide
  · rw [if_neg h] at hc
    exact natCharsAux_digits n n c hc

theorem val_replicate_zero (k : ℕ) (l : List Char) :
    valOfChars (List.replicate k '0' ++ l) = valOfChars l := by
  induction k with
  | zero => rfl
  | succ k ih =>
    rw [List.replicate_succ, List.cons_append]
    show valOfChars (List.replicate k '0' ++ l) = valOfChars l
    exact ih

theorem no_dash_pad (j m : ℕ) :
    '-' ∉ List.replicate j '0' ++ natChars m := by
  intro hm
  rcases List.mem_append.mp hm with hl | hr
  · exact absurd (List.eq_of_mem_replicate hl) (by decide)
  · exact absurd (natChars_digits m '-' hr) (by decide)

theorem pad4_inj (a b : ℤ) (h : pad4 a = pad4 b) : a = b := by
  unfold pad4 at h
  by_cases ha : a < 0 <;> by_cases hb : b < 0
  · rw [if_pos ha, if_pos hb] at h
    simp only [List.cons.injEq, true_and] at h
    have hv := congrArg valOfChars h
    rw [val_replicate_zero, val_replicate_zero, val_natChars, val_natChars] at hv
    omega
  · rw [if_pos ha, if_neg hb] at h
    exact absurd (h ▸ List.mem_cons_self '-' _) (no_dash_pad _ _)
  · rw [if_neg ha, if_pos hb] at h
    exact absurd (h.symm ▸ List.mem_cons_self '-' _) (no_dash_pad _ _)
  · rw [if_neg ha, if_neg hb] at h
    have hv := congrArg valOfChars h
    rw [val_replicate_zero, val_replicate_zero, val_natChars, val_natChars] at hv
    omega

theorem folder_int_3104 : folder_int (1552 / 5) = 310 :=
  pyRound_eq_of_lt _ 310 (by norm_num) (by norm_num)

/-! ### Claim C7 -/

/-- Claim C7: the workspace directory name is a deterministic function of
the temperature alone — the fixed prefix plus the zero-padded width-4
decimal of the rounded temperature ("T_0310" for 310.4) — and two
temperatures get the same name exactly when they round to the same
integer. -/
theorem C7_workspace_naming :
    (∀ t₁ t₂ : ℚ, folderName t₁ = folderName t₂ ↔ folder_int t₁ = folder_int t₂) ∧
    folderName (1552 / 5) = "T_0310".toList := by
  constructor
  · intro t₁ t₂
    constructor
    · intro h
      unfold folderName at h
      simp only [List.cons.injEq, true_and] at h
      exact pad4_inj _ _ h
    · intro h
      unfold folderName
      rw [h]
  · unfold folderName
    rw [folder_int_3104]
    decide

/-! ### Claim C2 -/

/-- Claim C2: for every resolved configuration, mesh generation takes the
step-mode branch (the arange computation): the flag-presence test is
satisfied unconditionally because the argument attribute dictionary always
contains a key containing "tstep", so the count-mode branch and the
error exit are unreachable. -/
theorem C2_step_mode_always (tmin tmax tstep : ℚ) (steps : ℤ) :
    computeMesh tmin tmax tstep steps
      = MeshResult.mesh (arange tmin (tmax + tstep) tstep) := by
  unfold computeMesh
  rw [if_pos (by decide)]

/-! ### Mesh lemmas and claim C1 -/

theorem rangeMap_head (f : ℕ → ℚ) (n : ℕ) (h : 0 < n) :
    ((List.range n).map f).head? = some (f 0) := by
  cases n with
  | zero => omega
  | succ m =>
    rw [List.range_succ_eq_map]
    simp

theorem rangeMap_last (f : ℕ → ℚ) (n : ℕ) (h : 0 < n) :
    ((List.range n).map f).getLast? = some (f (n - 1)) := by
  cases n with
  | zero => omega
  | succ m =>
    rw [List.range_succ, List.map_append]
    simp

theorem rangeMap_pairwise (f : ℕ → ℚ) (n : ℕ)
    (hf : ∀ a b : ℕ, a < b → f a < f b) :
    ((List.range n).map f).Pairwise (· < ·) :=
  List.pairwise_map.mpr ((List.pairwise_lt_range n).imp fun h => hf _ _ h)

/-- Claim C1, amended: for tstep > 0 and tmin ≤ tmax the step-mode mesh is
strictly increasing, starts at tmin, and its last element is ≤ tmax + tstep
and ≥ tmax (not strictly greater: when tmax - tmin is an exact multiple of
tstep the last element equals tmax). -/
theorem C1_step_mesh (tmin tmax tstep : ℚ) (hstep : 0 < tstep)
    (hle : tmin ≤ tmax) :
    (tMesh tmin tmax tstep).Pairwise (· < ·) ∧
    (tMesh tmin tmax tstep).head? = some tmin ∧
    tMesh tmin tmax tstep ≠ [] ∧
    tmax ≤ (tMesh tmin tmax tstep).getLastD 0 ∧
    (tMesh tmin tmax tstep).getLastD 0 ≤ tmax + tstep := by
  have hx1 : (1 : ℚ) ≤ (tmax + tstep - tmin) / tstep := by
    rw [le_div_iff₀ hstep]
    linarith
  have hn1 : (1 : ℤ) ≤ ⌈(tmax + tstep - tmin) / tstep⌉ := by
    have := hx1.trans (Int.le_ceil ((tmax + tstep - tmin) / tstep))
    exact_mod_cast this
  have h0 : 0 < (⌈(tmax + tstep - tmin) / tstep⌉).toNat := by omega
  have hmesh : tMesh tmin tmax tstep
      = (List.range (⌈(tmax + tstep - tmin) / tstep⌉).toNat).map
          (fun k : ℕ => tmin + (k : ℚ) * tstep) := rfl
  have hlast : (tMesh tmin tmax tstep).getLastD 0
      = tmin + ((⌈(tmax + tstep - tmin) / tstep⌉).toNat - 1 : ℕ) * tstep := by
    rw [hmesh, List.getLastD_eq_getLast?, rangeMap_last _ _ h0]
    rfl
  have hz : (((⌈(tmax + tstep - tmin) / tstep⌉).toNat - 1 : ℕ) : ℤ)
      = ⌈(tmax + tstep - tmin) / tstep⌉ - 1 := by omega
  have hc : (((⌈(tmax + tstep - tmin) / tstep⌉).toNat - 1 : ℕ) : ℚ)
      = (⌈(tmax + tstep - tmin) / tstep⌉ : ℚ) - 1 := by
    exact_mod_cast congrArg (fun z : ℤ => (z : ℚ)) hz
  have hxmul : (tmax + tstep - tmin) / tstep * tstep = tmax + tstep - tmin :=
    div_mul_cancel₀ _ (ne_of_gt hstep)
  have hceil_ub : ((⌈(tmax + tstep - tmin) / tstep⌉ : ℚ)) <
      (tmax + tstep - tmin) / tstep + 1 := Int.ceil_lt_add_one _
  have hceil_lb : (tmax + tstep - tmin) / tstep
      ≤ ((⌈(tmax + tstep - tmin) / tstep⌉ : ℚ)) := Int.le_ceil _
  refine ⟨?_, ?_, ?_, ?_, ?_⟩
  · rw [hmesh]
    refine rangeMap_pairwise _ _ fun a b hab => ?_
    have : (a : ℚ) < (b : ℚ) := by exact_mod_cast hab
    have := mul_lt_mul_of_pos_right this hstep
    linarith
  · rw [hmesh, rangeMap_head _ _ h0]
    norm_num
  · intro hnil
    have := rangeMap_head (fun k : ℕ => tmin + (k : ℚ) * tstep) _ h0
    rw [← hmesh, hnil] at this
    exact Option.noConfusion this
  · rw [hlast, hc]
    have : ((tmax + tstep - tmin) / tstep - 1) * tstep
        ≤ ((⌈(tmax + tstep - tmin) / tstep⌉ : ℚ) - 1) * tstep :=
      mul_le_mul_of_nonneg_right (by linarith) (le_of_lt hstep)
    rw [sub_mul, hxmul] at this
    linarith [this]
  · rw [hlast, hc]
    have : ((⌈(tmax + tstep - tmin) / tstep⌉ : ℚ) - 1) * tstep
        < ((tmax + tstep - tmin) / tstep) * tstep :=
      mul_lt_mul_of_pos_right (by linarith) hstep
    rw [hxmul] at this
    linarith [this]

/-- Witness for C1 (amended): the default configuration. -/
theorem C1_witness :
    (tMesh 0 500 100).Pairwise (· < ·) ∧
    (tMesh 0 500 100).head? = some 0 ∧
    tMesh 0 500 100 ≠ [] ∧
    (500 : ℚ) ≤ (tMesh 0 500 100).getLastD 0 ∧
    (tMesh 0 500 100).getLastD 0 ≤ 500 + 100 :=
  C1_step_mesh 0 500 100 (by norm_num) (by norm_num)

theorem tMesh_default : tMesh 0 500 100 = [0, 100, 200, 300, 400, 500] := by
  unfold tMesh arange
  rw [show ((500 : ℚ) + 100 - 0) / 100 = ((6 : ℤ) : ℚ) by norm_num,
    Int.ceil_intCast, show ((6 : ℤ)).toNat = 6 from rfl,
    show List.range 6 = [0, 1, 2, 3, 4, 5] from rfl]
  norm_num

/-- Counterexample to claim C1 as stated: at the default configuration
(tmin = 0, tmax = 500, tstep = 100) the hypotheses hold but the last mesh
element equals tmax = 500, so it is not strictly greater than tmax. -/
theorem C1_counterexample :
    (0 : ℚ) < 100 ∧ (0 : ℚ) ≤ 500 ∧
    (tMesh 0 500 100).getLastD 0 = 500 ∧
    ¬ (500 : ℚ) < (tMesh 0 500 100).getLastD 0 := by
  refine ⟨by norm_num, by norm_num, ?_, ?_⟩
  · rw [tMesh_default]
    rfl
  · rw [tMesh_default]
    exact lt_irrefl _

/-! ### Claim C10 -/

/-- Claim C10: rounding of the temperature uses round-half-to-even
tie-breaking (a tie at `k + 1/2` rounds to `k` when `k` is even and to
`k + 1` when `k` is odd; in particular 310.5 yields 310 and 311.5 yields
312), and for every temperature the integer used in the directory name
equals the integer substituted for the placeholder token. -/
theorem C10_round_half_even :
    (∀ t : ℚ, folder_int t = subst_int t) ∧
    (∀ k : ℤ, pyRound ((k : ℚ) + 1 / 2) = if k % 2 = 0 then k else k + 1) ∧
    pyRound (621 / 2) = 310 ∧ pyRound (623 / 2) = 312 := by
  refine ⟨fun t => rfl, fun k => ?_, ?_, ?_⟩
  · have hf : ⌊(k : ℚ) + 1 / 2⌋ = k := by
      rw [add_comm, Int.floor_add_int]
      norm_num
    by_cases he : k % 2 = 0
    · rw [if_pos he]
      exact pyRound_tie_even _ k hf (by ring) he
    · rw [if_neg he]
      exact pyRound_tie_odd _ k hf (by ring) he
  · exact pyRound_tie_even _ 310 (by norm_num) (by norm_num) (by decide)
  · rw [pyRound_tie_odd _ 311 (by norm_num) (by norm_num) (by decide)]
    decide

/-! ### Claim C5 -/

/-- Claim C5: for every file whose extension is not in the binary-exclusion
list, every occurrence of "TEMP" is replaced by the unpadded decimal string
of the rounded temperature; the file is written back only if its content
changed; undecodable files are skipped silently; and a file containing
"T=TEMP K" materialized at temperature 310.4 ends with content "T=310 K". -/
theorem C5_substitution :
    (substFile (1552 / 5)
        ⟨"inpsd.dat".toList, ".dat".toList, some "T=TEMP K".toList⟩).text
      = some "T=310 K".toList ∧
    (∀ t f txt, ¬ (f.suffix = ".exe".toList ∨ f.suffix = ".bin".toList) →
      f.text = some txt →
      (substFile t f).text = some (replaceTEMP (intChars (subst_int t)) txt)) ∧
    (∀ t f, f.text = none → substFile t f = f) ∧
    (∀ t f, (f.suffix = ".exe".toList ∨ f.suffix = ".bin".toList) →
      substFile t f = f) ∧
    (∀ t f, writesBack t f = true ↔ (substFile t f).text ≠ f.text) := by
  refine ⟨?_, ?_, ?_, ?_, ?_⟩
  · show (substFile _ ⟨_, _, _⟩).text = _
    unfold substFile
    rw [if_neg (by decide), subst_int_3104]
    decide
  · intro t f txt hs ht
    unfold substFile
    rw [if_neg hs, ht]
  · intro t f ht
    unfold substFile
    split
    · rfl
    · rw [ht]
  · intro t f hs
    unfold substFile
    rw [if_pos hs]
  · intro t f
    unfold writesBack substFile
    by_cases hs : f.suffix = ".exe".toList ∨ f.suffix = ".bin".toList
    · rw [if_pos hs, if_pos hs]
      simp
    · rw [if_neg hs, if_neg hs]
      rcases ho : f.text with _ | txt
      · simp [ho]
      · simp [ho]

/-- Witness for C5: a file that cannot be decoded as text is skipped
unchanged. -/
theorem C5_witness :
    substFile 100 ⟨"spins.gz".toList, ".gz".toList, none⟩
      = ⟨"spins.gz".toList, ".gz".toList, none⟩ :=
  C5_substitution.2.2.1 100 _ rfl

/-! ### Claim C4 -/

/-- Claim C4: if the external binary fails at some temperature of the mesh,
the sweep stops there: exactly the earlier temperatures and the failing one
were ever run (each invocation having materialized its workspace and
created its log), the later temperatures are never run, and the process
ends unsuccessfully. -/
theorem C4_stop_at_first_failure (outcome : ℚ → RunOutcome) (pre : List ℚ)
    (t : ℚ) (post : List ℚ) (hok : ∀ s ∈ pre, outcome s = RunOutcome.ok)
    (hfail : outcome t = RunOutcome.fail) :
    runSweep outcome (pre ++ t :: post) = (pre ++ [t], false) := by
  induction pre with
  | nil => simp [runSweep, hfail]
  | cons s pre ih =>
    have hs := hok s (List.mem_cons_self s pre)
    have ih' := ih fun x hx => hok x (List.mem_cons_of_mem s hx)
    simp [runSweep, hs, ih']

/-- Witness for C4: with a binary failing exactly at temperature 200, the
sweep over the mesh 0, 100, 200, 300 runs 0, 100, 200 and stops. -/
theorem C4_witness :
    runSweep (fun t => if t = 200 then RunOutcome.fail else RunOutcome.ok)
      [0, 100, 200, 300] = ([0, 100, 200], false) := by
  have h := C4_stop_at_first_failure
    (fun t => if t = 200 then RunOutcome.fail else RunOutcome.ok)
    [0, 100] 200 [300] (by decide) (by decide)
  simpa using h

/-! ### Claim C9 -/

/-- Claim C9: if the base template directory does not exist, `run_simulation`
raises an IO error before the workspace's `out.log` is created and before
any subprocess is launched, and a raised run error aborts the whole sweep
at that temperature. -/
theorem C9_missing_base :
    (runSimActs false).2 = true ∧
    SimAct.openLogA ∉ (runSimActs false).1 ∧
    SimAct.launchA ∉ (runSimActs false).1 ∧
    (∀ outcome t rest, outcome t = RunOutcome.fail →
      runSweep outcome (t :: rest) = ([t], false)) := by
  refine ⟨rfl, by decide, by decide, ?_⟩
  intro outcome t rest h
  simp [runSweep, h]

/-- Witness for C9: a failing first run aborts the sweep immediately. -/
theorem C9_witness :
    runSweep (fun _ => RunOutcome.fail) [0] = ([0], false) :=
  C9_missing_base.2.2.2 (fun _ => RunOutcome.fail) 0 [] rfl

/-! ### Idempotence of the substitution, and claim C8 -/

theorem replaceTEMP_short (rep l : List Char) (h : l.length ≤ 3) :
    replaceTEMP rep l = l := by
  rcases l with _ | ⟨c₁, _ | ⟨c₂, _ | ⟨c₃, _ | ⟨c₄, rest⟩⟩⟩⟩
  · rfl
  · rfl
  · rfl
  · rfl
  · simp at h

theorem replaceTEMP_cons4 (rep : List Char) (c₁ c₂ c₃ c₄ : Char)
    (rest : List Char) :
    replaceTEMP rep (c₁ :: c₂ :: c₃ :: c₄ :: rest)
      = if c₁ = 'T' ∧ c₂ = 'E' ∧ c₃ = 'M' ∧ c₄ = 'P' then
          rep ++ replaceTEMP rep rest
        else c₁ :: replaceTEMP rep (c₂ :: c₃ :: c₄ :: rest) := rfl

theorem replaceTEMP_safe_append (rep a x : List Char)
    (ha : ∀ c ∈ a, c ≠ 'T') :
    replaceTEMP rep (a ++ x) = a ++ replaceTEMP rep x := by
  induction a with
  | nil => simp
  | cons c a ih =>
    have hc : c ≠ 'T' := ha c (List.mem_cons_self c a)
    have ih' := ih fun d hd => ha d (List.mem_cons_of_mem c hd)
    rw [List.cons_append]
    by_cases hlen : (a ++ x).length ≤ 2
    · rw [List.length_append] at hlen
      have hx : x.length ≤ 3 := by omega
      rw [replaceTEMP_short rep (c :: (a ++ x))
          (by simp [List.length_append]; omega),
        replaceTEMP_short rep x hx]
      rfl
    · have hex : ∃ d₁ d₂ d₃ t, a ++ x = d₁ :: d₂ :: d₃ :: t := by
        rcases hax : a ++ x with _ | ⟨d₁, _ | ⟨d₂, _ | ⟨d₃, t⟩⟩⟩
        · simp [hax] at hlen
        · simp [hax] at hlen
        · simp [hax] at hlen
        · exact ⟨d₁, d₂, d₃, t, rfl⟩
      obtain ⟨d₁, d₂, d₃, t, htail⟩ := hex
      rw [htail, replaceTEMP_cons4, if_neg (fun hh => hc hh.1), ← htail, ih']
      rfl

theorem rep_head_ne (rep : List Char) (hne : rep ≠ [])
    (hrep : ∀ c ∈ rep, c ≠ 'T' ∧ c ≠ 'E' ∧ c ≠ 'M' ∧ c ≠ 'P')
    (z : List Char) (d : Char) (t : List Char) (heq : rep ++ z = d :: t) :
    d ≠ 'T' ∧ d ≠ 'E' ∧ d ≠ 'M' ∧ d ≠ 'P' := by
  cases rep with
  | nil => exact absurd rfl hne
  | cons r rep =>
    rw [List.cons_append] at heq
    injection heq with h1 h2
    exact h1 ▸ hrep r (List.mem_cons_self r rep)

theorem replaceTEMP_not_EMP (rep : List Char) (hne : rep ≠ [])
    (hrep : ∀ c ∈ rep, c ≠ 'T' ∧ c ≠ 'E' ∧ c ≠ 'M' ∧ c ≠ 'P')
    (c₂ c₃ c₄ : Char) (rest : List Char)
    (hcond : ¬ (c₂ = 'E' ∧ c₃ = 'M' ∧ c₄ = 'P'))
    (d₁ d₂ d₃ : Char) (t : List Char)
    (heq : replaceTEMP rep (c₂ :: c₃ :: c₄ :: rest) = d₁ :: d₂ :: d₃ :: t) :
    ¬ (d₁ = 'E' ∧ d₂ = 'M' ∧ d₃ = 'P') := by
  rintro ⟨rfl, rfl, rfl⟩
  cases rest with
  | nil =>
    rw [replaceTEMP_short rep _ (by simp)] at heq
    injection heq with e₁ heq
    injection heq with e₂ heq
    injection heq with e₃ heq
    exact hcond ⟨e₁, e₂, e₃⟩
  | cons e rest =>
    rw [replaceTEMP_cons4] at heq
    by_cases hm : c₂ = 'T' ∧ c₃ = 'E' ∧ c₄ = 'M' ∧ e = 'P'
    · rw [if_pos hm] at heq
      exact (rep_head_ne rep hne hrep _ _ _ heq).2.1 rfl
    · rw [if_neg hm] at heq
      injection heq with e₁ heq
      have hcond2 : ¬ (c₃ = 'M' ∧ c₄ = 'P') := fun hh => hcond ⟨e₁, hh.1, hh.2⟩
      cases rest with
      | nil =>
        rw [replaceTEMP_short rep _ (by simp)] at heq
        injection heq with e₂ heq
        injection heq with e₃ heq
        exact hcond2 ⟨e₂, e₃⟩
      | cons f rest =>
        rw [replaceTEMP_cons4] at heq
        by_cases hm2 : c₃ = 'T' ∧ c₄ = 'E' ∧ e = 'M' ∧ f = 'P'
        · rw [if_pos hm2] at heq
          exact (rep_head_ne rep hne hrep _ _ _ heq).2.2.1 rfl
        · rw [if_neg hm2] at heq
          injection heq with e₂ heq
          have hc4 : ¬ c₄ = 'P' := fun hh => hcond2 ⟨e₂, hh⟩
          cases rest with
          | nil =>
            rw [replaceTEMP_short rep _ (by simp)] at heq
            injection heq with e₃ heq
            exact hc4 e₃
          | cons g rest =>
            rw [replaceTEMP_cons4] at heq
            by_cases hm3 : c₄ = 'T' ∧ e = 'E' ∧ f = 'M' ∧ g = 'P'
            · rw [if_pos hm3] at heq
              exact (rep_head_ne rep hne hrep _ _ _ heq).2.2.2 rfl
            · rw [if_neg hm3] at heq
              injection heq with e₃ heq
              exact hc4 e₃

theorem replaceTEMP_idem_aux (rep : List Char) (hne : rep ≠ [])
    (hrep : ∀ c ∈ rep, c ≠ 'T' ∧ c ≠ 'E' ∧ c ≠ 'M' ∧ c ≠ 'P') :
    ∀ N l, l.length ≤ N →
      replaceTEMP rep (replaceTEMP rep l) = replaceTEMP rep l := by
  intro N
  induction N with
  | zero =>
    intro l h
    have h0 : l = [] := List.length_eq_zero.mp (by omega)
    subst h0
    rfl
  | succ N ih =>
    intro l hlen
    by_cases h3 : l.length ≤ 3
    · rw [replaceTEMP_short rep l h3, replaceTEMP_short rep l h3]
    · rcases l with _ | ⟨c₁, _ | ⟨c₂, _ | ⟨c₃, _ | ⟨c₄, rest⟩⟩⟩⟩
      · simp at h3
      · simp at h3
      · simp at h3
      · simp at h3
      · rw [replaceTEMP_cons4]
        by_cases hm : c₁ = 'T' ∧ c₂ = 'E' ∧ c₃ = 'M' ∧ c₄ = 'P'
        · rw [if_pos hm,
            replaceTEMP_safe_append rep rep _ (fun c hc => (hrep c hc).1)]
          congr 1
          exact ih rest (by simp at hlen; omega)
        · rw [if_neg hm]
          rcases hR : replaceTEMP rep (c₂ :: c₃ :: c₄ :: rest)
            with _ | ⟨d₁, _ | ⟨d₂, _ | ⟨d₃, t⟩⟩⟩
          · rfl
          · rfl
          · rfl
          · rw [replaceTEMP_cons4]
            have hnm : ¬ (c₁ = 'T' ∧ d₁ = 'E' ∧ d₂ = 'M' ∧ d₃ = 'P') := by
              rintro ⟨h₁, h₂, h₃, h₄⟩
              exact replaceTEMP_not_EMP rep hne hrep c₂ c₃ c₄ rest
                (fun hh => hm ⟨h₁, hh.1, hh.2.1, hh.2.2⟩) d₁ d₂ d₃ t hR
                ⟨h₂, h₃, h₄⟩
            rw [if_neg hnm, ← hR,
              ih (c₂ :: c₃ :: c₄ :: rest) (by simp at hlen ⊢; omega)]

theorem natCharsAux_ne_nil : ∀ fuel n, n ≠ 0 → n ≤ fuel →
    natCharsAux fuel n ≠ [] := by
  intro fuel n h0 hle
  cases fuel with
  | zero => omega
  | succ f =>
    cases n with
    | zero => omega
    | succ m =>
      have heq : natCharsAux (f + 1) (m + 1)
          = natCharsAux f ((m + 1) / 10) ++ [digitChar ((m + 1) % 10)] := rfl
      rw [heq]
      simp

theorem natChars_ne_nil (n : ℕ) : natChars n ≠ [] := by
  unfold natChars
  by_cases h : n = 0
  · rw [if_pos h]
    simp
  · rw [if_neg h]
    exact natCharsAux_ne_nil n n h le_rfl

theorem intChars_ne_nil (n : ℤ) : intChars n ≠ [] := by
  cases n with
  | ofNat m => exact natChars_ne_nil m
  | negSucc m => simp [intChars]

theorem digit_not_TEMP :
    ∀ c ∈ digitList, c ≠ 'T' ∧ c ≠ 'E' ∧ c ≠ 'M' ∧ c ≠ 'P' := by decide

theorem intChars_chars (n : ℤ) :
    ∀ c ∈ intChars n, c ≠ 'T' ∧ c ≠ 'E' ∧ c ≠ 'M' ∧ c ≠ 'P' := by
  intro c hc
  cases n with
  | ofNat m => exact digit_not_TEMP c (natChars_digits m c hc)
  | negSucc m =>
    rcases List.mem_cons.mp hc with h | h
    · subst h
      decide
    · exact digit_not_TEMP c (natChars_digits (m + 1) c h)

theorem replaceTEMP_intChars_idem (n : ℤ) (l : List Char) :
    replaceTEMP (intChars n) (replaceTEMP (intChars n) l)
      = replaceTEMP (intChars n) l :=
  replaceTEMP_idem_aux (intChars n) (intChars_ne_nil n) (intChars_chars n)
    l.length l le_rfl

theorem substFile_name (t : ℚ) (f : WFile) : (substFile t f).name = f.name := by
  unfold substFile
  split
  · rfl
  · split <;> rfl

theorem substFile_idem (t : ℚ) (f : WFile) :
    substFile t (substFile t f) = substFile t f := by
  rcases f with ⟨nm, sfx, txt⟩
  by_cases hs : sfx = ".exe".toList ∨ sfx = ".bin".toList
  · have h1 : substFile t ⟨nm, sfx, txt⟩ = ⟨nm, sfx, txt⟩ := by
      unfold substFile
      rw [if_pos hs]
    rw [h1, h1]
  · rcases txt with _ | txt
    · have h1 : substFile t ⟨nm, sfx, none⟩ = ⟨nm, sfx, none⟩ := by
        unfold substFile
        rw [if_neg hs]
      rw [h1, h1]
    · have h1 : substFile t ⟨nm, sfx, some txt⟩
          = ⟨nm, sfx, some (replaceTEMP (intChars (subst_int t)) txt)⟩ := by
        unfold substFile
        rw [if_neg hs]
      have h2 : substFile t
            ⟨nm, sfx, some (replaceTEMP (intChars (subst_int t)) txt)⟩
          = ⟨nm, sfx, some (replaceTEMP (intChars (subst_int t))
              (replaceTEMP (intChars (subst_int t)) txt))⟩ := by
        unfold substFile
        rw [if_neg hs]
      rw [h1, h2, replaceTEMP_intChars_idem]

theorem filter_twice {α : Type} (p : α → Bool) (l : List α) :
    (l.filter p).filter p = l.filter p := by
  rw [List.filter_filter]
  exact List.filter_congr fun a _ => Bool.and_self _

theorem base_filter_self (base : List WFile) :
    base.filter (fun f => !(base.any fun b => b.name == f.name)) = [] := by
  rw [List.filter_eq_nil_iff]
  intro b hb
  have hany : (base.any fun b' => b'.name == b.name) = true :=
    List.any_eq_true.mpr ⟨b, hb, by simp⟩
  simp [hany]

theorem filter_map_subst (t : ℚ) (q : WFile → Bool)
    (hq : ∀ f, q (substFile t f) = q f) (Y : List WFile) :
    (Y.map (substFile t)).filter q = (Y.filter q).map (substFile t) := by
  rw [List.filter_map]
  congr 1
  exact List.filter_congr fun a _ => hq a

theorem materialize_files_idem (t : ℚ) (base X : List WFile) :
    (copyInto base ((copyInto base X).map (substFile t))).map (substFile t)
      = (copyInto base X).map (substFile t) := by
  have hq : ∀ f : WFile,
      (!(base.any fun b => b.name == (substFile t f).name))
        = (!(base.any fun b => b.name == f.name)) := by
    intro f
    rw [substFile_name]
  unfold copyInto
  rw [List.map_append, List.map_append, List.filter_append,
    filter_map_subst t _ hq, filter_map_subst t _ hq, filter_twice,
    base_filter_self, List.map_nil, List.append_nil, List.map_map]
  congr 1
  exact List.map_congr_left fun a _ => substFile_idem t a

/-! ### Claim C8 -/

/-- Claim C8: materializing the same temperature twice is idempotent: the
second materialization does not fail because the workspace directory
already exists (`mkdir(exist_ok=True)`), the resulting workspace equals the
one after the first materialization, and applying the token replacement
twice equals applying it once (the replacement string, the decimal of an
integer, contains no occurrence of the placeholder token). -/
theorem C8_materialize_idem :
    (∀ (t : ℚ) (base : List WFile) (w w₁ : Workspace),
      materialize t base w = some w₁ → materialize t base w₁ = some w₁) ∧
    (∀ (n : ℤ) (l : List Char),
      replaceTEMP (intChars n) (replaceTEMP (intChars n) l)
        = replaceTEMP (intChars n) l) := by
  constructor
  · intro t base w w₁ h
    have hmk : ∀ v : Workspace, mkdir true v = some ⟨true, v.files⟩ := by
      rintro ⟨d, fs⟩
      cases d <;> rfl
    have hmat : ∀ v : Workspace, materialize t base v
        = some ⟨true, (copyInto base v.files).map (substFile t)⟩ := by
      intro v
      unfold materialize
      rw [hmk]
    rw [hmat] at h
    have hw : w₁ = ⟨true, (copyInto base w.files).map (substFile t)⟩ :=
      (Option.some.inj h).symm
    subst hw
    rw [hmat]
    show some (⟨true, (copyInto base
        (((copyInto base w.files).map (substFile t)))).map (substFile t)⟩ :
        Workspace) = _
    rw [materialize_files_idem]
  · exact fun n l => replaceTEMP_intChars_idem n l

theorem subst_int_100 : subst_int (100 : ℚ) = 100 :=
  pyRound_eq_of_lt _ 100 (by norm_num) (by norm_num)

/-- Witness for C8: re-materializing the already-materialized workspace for
temperature 100 succeeds and leaves it unchanged. -/
theorem C8_witness :
    materialize 100 [⟨"inpsd.dat".toList, ".dat".toList, some "T=TEMP K".toList⟩]
      ⟨true, [⟨"inpsd.dat".toList, ".dat".toList, some "T=100 K".toList⟩]⟩
      = some ⟨true, [⟨"inpsd.dat".toList, ".dat".toList, some "T=100 K".toList⟩]⟩ := by
  have hfile : substFile 100
      ⟨"inpsd.dat".toList, ".dat".toList, some "T=TEMP K".toList⟩
      = ⟨"inpsd.dat".toList, ".dat".toList, some "T=100 K".toList⟩ := by
    unfold substFile
    rw [if_neg (by decide), subst_int_100]
    decide
  have h0 : materialize 100
      [⟨"inpsd.dat".toList, ".dat".toList, some "T=TEMP K".toList⟩]
      ⟨false, []⟩
      = some ⟨true, [⟨"inpsd.dat".toList, ".dat".toList, some "T=100 K".toList⟩]⟩ := by
    show some (⟨true, [substFile 100
        ⟨"inpsd.dat".toList, ".dat".toList, some "T=TEMP K".toList⟩]⟩ :
        Workspace) = _
    rw [hfile]
  exact C8_materialize_idem.1 100 _ ⟨false, []⟩ _ h0

/-! ### Claim C3 -/

/-- Claim C3 is contradicted by the source: `--tstep` is declared as
`type=float`, but the config-file override block converts the `tstep`
config value with `int(...)` (`src/t_sweeper.py:161`), so a float text such
as "2.5" — accepted by the `--tstep` flag — raises `ValueError` when given
through the config file; moreover, when a config file is given without a
`tstep` key, the CLI-supplied float is truncated to an integer.  This
theorem evaluates the embedded code at these inputs. -/
theorem C3_tstep_int_divergence :
    pyFloatOfString "2.5".toList = some (5 / 2 : ℚ) ∧
    pyIntOfString "2.5".toList = none ∧
    applyConfig [("tstep".toList, "2.5".toList)] defaultArgs = none ∧
    applyConfig (parse_config_file "tstep=2.5".toList) defaultArgs = none ∧
    applyConfig [] { defaultArgs with tstep := 5 / 2 }
      = some { defaultArgs with tstep := 2 } := by
  refine ⟨?_, by decide, rfl, rfl, ?_⟩
  · have h : pyFloatOfString "2.5".toList
        = some (((2 : ℕ) : ℚ) + ((5 : ℕ) : ℚ) / 10 ^ (1 : ℕ)) := rfl
    rw [h]
    norm_num
  · have ht : truncQ (5 / 2 : ℚ) = 2 := by
      unfold truncQ
      rw [if_pos (by norm_num)]
      norm_num
    have h5 : applyConfig [] { defaultArgs with tstep := 5 / 2 }
        = some { defaultArgs with tstep := ((truncQ (5 / 2 : ℚ) : ℤ) : ℚ) } := rfl
    rw [h5, ht]
    norm_num

/-! ### Claim C6 -/

/-- Claim C6: config parsing maps each line as follows: a line containing
'=' whose trimmed form does not start with '#' is split on the first '='
with both sides trimmed and stored key-to-value, the last occurrence of a
key winning; lines without '=' and comment lines contribute nothing; and
the example file parses to exactly the four expected pairs. -/
theorem C6_config_parsing :
    (parse_config_file
        "tmin=100\ntmax=300\ntstep=100\n# comment\nbinary=/opt/sim".toList
      = [("tmin".toList, "100".toList), ("tmax".toList, "300".toList),
         ("tstep".toList, "100".toList), ("binary".toList, "/opt/sim".toList)]) ∧
    (∀ cfg line, line.contains '=' = false → processLine cfg line = cfg) ∧
    (∀ cfg line, "#".toList.isPrefixOf (strip line) = true →
      processLine cfg line = cfg) ∧
    (∀ cfg line, line.contains '=' = true →
      "#".toList.isPrefixOf (strip line) = false →
      processLine cfg line
        = dUpsert cfg (strip (splitEq1 (strip line)).1)
            (strip (splitEq1 (strip line)).2)) ∧
    (∀ cfg k v₁ v₂, dget (dUpsert (dUpsert cfg k v₁) k v₂) k = some v₂) := by
  refine ⟨by decide, ?_, ?_, ?_, ?_⟩
  · intro cfg line h
    unfold processLine
    rw [h]
    simp
  · intro cfg line h
    unfold processLine
    rw [h]
    simp
  · intro cfg line h1 h2
    unfold processLine
    rw [h1, h2]
    simp
  · intro cfg k v₁ v₂
    exact dget_dUpsert_self (dUpsert cfg k v₁) k v₂

/-- Witness for C6: a line without '=' contributes nothing. -/
theorem C6_witness : processLine [] "no equals sign".toList = [] :=
  C6_config_parsing.2.1 [] _ (by decide)

example : natChars 310 = ['3', '1', '0'] := by decide
example : intChars (-27) = ['-', '2', '7'] := by decide
example : pad4 (-5) = "-005".toList := by decide
example : pad4 310 = "0310".toList := by decide
example : replaceTEMP ['3', '1', '0'] "T=TEMP K".toList = "T=310 K".toList := by decide
example : pyIntOfString "2".toList = some 2 := by decide
example : pyIntOfString "2.5".toList = none := by decide
example : argDictKeys.any (fun k => listInfixOf "tstep".toList k) = true := by decide

end TSweeper
